import Mathlib

/-!
# Verification of the auto file organiser (`src/main.py`)

A shallow embedding of the classify-then-move pipeline of `FileOrganizer`
(`src/main.py`) and proofs of the specified properties.

* Filenames and paths are Lean `String`s; Python's `str.lower`, `in`
  (substring test), `os.path.splitext`, `os.path.join`, `os.path.dirname`
  are modelled below, character-for-character on `String.data`.
* The filesystem is a finite state `FS` (a list of file paths and a list
  of directory paths).  `os.path.exists` / `os.path.isfile` / `os.listdir`
  / `shutil.move` / `os.makedirs` become pure functions on `FS`.
* Environmental failure (permission errors, a file disappearing, ...) is
  an oracle: a `MoveEnv` says which `shutil.move` calls succeed, and a
  `DateEnv` additionally says which `os.path.getmtime` / `os.makedirs`
  calls succeed.  A Python exception that the source never catches is an
  `Option.none` result of the embedded function.
* All functions are computable, so every concrete run used as a witness
  or counterexample can be evaluated inside the logic.
-/

/-! ## String helpers (Python primitives used by `main.py`) -/

/-- Drop `pre` from the front of `l`; `none` when `pre` is not a prefix. -/
def dropPref : List Char → List Char → Option (List Char)
  | [], l => some l
  | _ :: _, [] => none
  | a :: as, b :: bs => if a = b then dropPref as bs else none

/-- Helper for Python's substring test `pat in s` on character lists. -/
def strContainsAux (pat : List Char) : List Char → Bool
  | [] => pat.isEmpty
  | c :: rest => pat.isPrefixOf (c :: rest) || strContainsAux pat rest

/-- Python's `pat in s` (contiguous substring containment). -/
def containsStr (s pat : String) : Bool :=
  strContainsAux pat.data s.data

/-- Python's `str.lower()` (ASCII range, which covers every token the
source compares against), character by character. -/
def strLower (s : String) : String :=
  ⟨s.data.map Char.toLower⟩

/-- Split `l` as `pre ++ c :: post` where `post` is `c`-free (i.e. at the
last occurrence of `c`); `none` when `c` does not occur in `l`. -/
def splitOnLast (c : Char) : List Char → Option (List Char × List Char)
  | [] => none
  | a :: rest =>
    match splitOnLast c rest with
    | some (pre, post) => some (a :: pre, post)
    | none => if a = c then some ([], rest) else none

/-- Python's `os.path.splitext` restricted to a bare filename (no
directory separators before the dot): split at the last `'.'`, except
that a filename whose characters before the last dot are all dots (for
example `".bashrc"`, `"..."`) has no extension.  The extension keeps its
leading dot, exactly as in Python. -/
def splitext (filename : String) : String × String :=
  match splitOnLast '.' filename.data with
  | none => (filename, "")
  | some (pre, post) =>
    if pre.any (fun c => c ≠ '.') then (⟨pre⟩, ⟨'.' :: post⟩)
    else (filename, "")

/-- `os.path.join folder name` in the form used throughout `main.py`
(non-empty folder with no trailing separator, relative name). -/
def joinPath (a b : String) : String := a ++ "/" ++ b

/-- `os.path.dirname`: everything before the last `'/'` (empty when the
path has no separator). -/
def dirname (p : String) : String :=
  match splitOnLast '/' p.data with
  | some (pre, _) => ⟨pre⟩
  | none => ""

/-- A legal directory-entry name: non-empty and free of `'/'`.  Every
name produced by `os.listdir` has this shape. -/
def validName (n : String) : Prop :=
  n.data ≠ [] ∧ n.data.contains '/' = false

instance (n : String) : Decidable (validName n) := by
  unfold validName; infer_instance

/-- The name of `p` as a directory entry of `root`: `some n` when
`p = root ++ "/" ++ n` with `n` a valid entry name, else `none`. -/
def childName (root p : String) : Option String :=
  (dropPref (root.data ++ ['/']) p.data).bind (fun rest =>
    if !rest.isEmpty && !rest.contains '/' then some ⟨rest⟩ else none)

/-! ## The classifier (`FileOrganizer.get_file_category`, main.py:102-125) -/

/-- The name-substring tokens of the `"Screenshots"` entry of
`self.file_categories` (main.py:48-51). -/
def screenshotTokens : List String :=
  ["screenshot", "screen shot", "screen capture", "captura", "print screen"]

/-- `self.file_categories` (main.py:39-74): an insertion-ordered dict,
modelled as an association list in declaration order. -/
def file_categories : List (String × List String) :=
  [("Documents",
    [".pdf", ".doc", ".docx", ".txt", ".rtf", ".odt",
     ".xls", ".xlsx", ".ppt", ".pptx", ".csv", ".md"]),
   ("Images",
    [".jpg", ".jpeg", ".png", ".gif", ".bmp", ".svg",
     ".tiff", ".webp", ".ico", ".heic"]),
   ("Screenshots", screenshotTokens),
   ("Videos",
    [".mp4", ".avi", ".mkv", ".mov", ".wmv", ".flv",
     ".webm", ".m4v", ".mpg", ".mpeg"]),
   ("Music",
    [".mp3", ".wav", ".flac", ".aac", ".ogg", ".m4a",
     ".wma"]),
   ("Archives",
    [".zip", ".rar", ".7z", ".tar", ".gz", ".bz2",
     ".iso", ".dmg"]),
   ("Executables",
    [".exe", ".msi", ".app", ".deb", ".rpm", ".sh",
     ".bat", ".cmd"]),
   ("Code",
    [".py", ".js", ".html", ".css", ".cpp", ".c",
     ".java", ".php", ".rb", ".go", ".rs", ".swift",
     ".json", ".xml", ".yaml", ".yml"]),
   ("Others", [])]

/-- `FileOrganizer.get_file_category` (main.py:102-125): screenshots by
name substring first, then the first category (in declaration order,
skipping `"Screenshots"`) whose token list contains the lowercased
extension, else `"Others"`. -/
def get_file_category (filename : String) : String :=
  let file_lower := strLower filename
  if screenshotTokens.any (fun keyword => containsStr file_lower keyword) then
    "Screenshots"
  else
    let file_ext := strLower (splitext filename).2
    match file_categories.find?
        (fun ce => ce.1 != "Screenshots" && ce.2.contains file_ext) with
    | some ce => ce.1
    | none => "Others"

/-- Modelled from the spec's wording of step 3 of the classifier
("scan categories in their declared order (excluding Screenshots),
returning the first category whose token list contains that exact
extension", falling back to `"Others"`), for comparison with
`get_file_category`. -/
def extScanSpec (filename : String) : String :=
  let ext := strLower (splitext filename).2
  match (file_categories.filter (fun ce => ce.1 != "Screenshots")).find?
      (fun ce => ce.2.contains ext) with
  | some ce => ce.1
  | none => "Others"

/-! ## Filesystem model -/

/-- A finite filesystem state: the set of regular-file paths and the set
of directory paths, as lists (list order models `os.listdir` order). -/
structure FS where
  files : List String
  dirs : List String
deriving DecidableEq

/-- `os.path.exists`. -/
def pathExists (fs : FS) (p : String) : Bool :=
  fs.files.contains p || fs.dirs.contains p

/-- `os.path.isfile`. -/
def isFile (fs : FS) (p : String) : Bool :=
  fs.files.contains p

/-- `os.path.isdir`; also: whether `os.listdir p` succeeds. -/
def isDir (fs : FS) (p : String) : Bool :=
  fs.dirs.contains p

/-- `os.listdir root`: the entry names of paths directly under `root`. -/
def listdir (fs : FS) (root : String) : List String :=
  fs.files.filterMap (childName root) ++ fs.dirs.filterMap (childName root)

/-- A successful `shutil.move src dst` on a regular file: `src` is gone,
`dst` is a file. -/
def moveFile (fs : FS) (src dst : String) : FS :=
  { fs with files := fs.files.filter (fun p => p ≠ src) ++ [dst] }

/-! ## Collision resolution (main.py:173-180, repeated at main.py:259-266)

The source resolves a destination collision with a `while` loop that
tries `f"{name}_{counter}{ext}"` for `counter = 1, 2, ...` until the
candidate does not exist.  The loop is embedded with explicit fuel
(`findFreeAux`); `resolveFuel` is fuel large enough that a free
candidate is always reached first (proved below via a length bound:
a candidate whose counter has more decimal digits than any path in the
finite state `fs` cannot collide), so the fuel-exhaustion branch is
unreachable. -/

/-- The candidate path `os.path.join dest_folder f"{name}_{counter}{ext}"`
(main.py:178-179). -/
def mkCand (folder stem ext : String) (counter : Nat) : String :=
  joinPath folder (stem ++ "_" ++ Nat.repr counter ++ ext)

/-- The `while os.path.exists(dest_path)` loop of main.py:177-180. -/
def findFreeAux (fs : FS) (folder stem ext : String) :
    Nat → Nat → String
  | 0, counter => mkCand folder stem ext counter
  | fuel + 1, counter =>
    let cand := mkCand folder stem ext counter
    if pathExists fs cand then findFreeAux fs folder stem ext fuel (counter + 1)
    else cand

/-- Length (in characters) of the longest path in `fs`. -/
def maxPathLen (fs : FS) : Nat :=
  ((fs.files ++ fs.dirs).map (fun p => p.data.length)).foldr Nat.max 0

/-- Fuel sufficient for `findFreeAux` to reach a free candidate. -/
def resolveFuel (fs : FS) : Nat := 10 ^ (maxPathLen fs + 1)

/-- The duplicate-filename handling of main.py:173-180: return
`dest_folder/filename` if free, else the first `stem_k.ext` (k = 1, 2,
...) that is free.  Pure: two calls on the same `fs` return the same
path. -/
def resolve_collision (fs : FS) (dest_folder filename : String) : String :=
  let dest_path := joinPath dest_folder filename
  if pathExists fs dest_path then
    findFreeAux fs dest_folder (splitext filename).1 (splitext filename).2
      (resolveFuel fs) 1
  else dest_path

/-! ## Run statistics and the pipeline (`organize_files`, main.py:127-215) -/

/-- The `stats` dictionary of main.py:137-142; `categories` is the
insertion-ordered dict `stats['categories']` as an association list. -/
structure Stats where
  moved : Nat
  skipped : Nat
  errors : Nat
  categories : List (String × Nat)
deriving DecidableEq

/-- The fresh statistics of main.py:137-142. -/
def stats0 : Stats := ⟨0, 0, 0, []⟩

/-- The category-count update of main.py:192-195: `+= 1` when the key is
present, else insert with count 1. -/
def bumpCat (cats : List (String × Nat)) (c : String) : List (String × Nat) :=
  if cats.any (fun p => p.1 = c) then
    cats.map (fun p => if p.1 = c then (p.1, p.2 + 1) else p)
  else cats ++ [(c, 1)]

/-- `os.path.basename(__file__)` (main.py:157). -/
def scriptName : String := "main.py"

/-- The log artifact name of main.py:157. -/
def logName : String := "file_organizer.log"

/-- Environmental success oracle for `shutil.move src dst`: `false`
means the call raises (permission, cross-device, vanished file, ...). -/
def MoveEnv : Type := String → String → Bool

/-- The body of the `for filename in files` loop (main.py:153-199),
threading the filesystem and the statistics. -/
def processFile (env : MoveEnv) (root : String) (dry_run : Bool)
    (acc : FS × Stats) (filename : String) : FS × Stats :=
  let fs := acc.1
  let stats := acc.2
  let file_path := joinPath root filename
  if filename = scriptName ∨ filename = logName then
    (fs, { stats with skipped := stats.skipped + 1 })
  else
    let category := get_file_category filename
    if dirname file_path = joinPath root category then
      (fs, { stats with skipped := stats.skipped + 1 })
    else
      let dest_folder := joinPath root category
      let dest_path := resolve_collision fs dest_folder filename
      if dry_run then
        (fs, { stats with moved := stats.moved + 1 })
      else if env file_path dest_path then
        (moveFile fs file_path dest_path,
          { stats with
              moved := stats.moved + 1,
              categories := bumpCat stats.categories category })
      else
        (fs, { stats with errors := stats.errors + 1 })

/-- The snapshot `files = [f for f in items if isfile(join(path, f))]`
of main.py:150-151. -/
def listedFiles (fs : FS) (root : String) : List String :=
  (listdir fs root).filter (fun f => isFile fs (joinPath root f))

/-- `FileOrganizer.organize_files` (main.py:127-215).  The top-level
`try` catches only the `os.listdir` failure (nothing else in its scope
raises: per-file move failures are caught by the inner `try`), returning
the statistics accumulated so far — which at that point are the fresh
zeros of main.py:137-142. -/
def organize_files (env : MoveEnv) (fs : FS) (root : String)
    (dry_run : Bool) : FS × Stats :=
  if isDir fs root then
    (listedFiles fs root).foldl (processFile env root dry_run) (fs, stats0)
  else (fs, stats0)

/-! ## Date-based mode (`organize_by_date`, main.py:235-272) -/

/-- Environmental oracle for the date mode: `mtime` is
`os.path.getmtime` (`none` = raises), `fmtDate` is
`datetime.fromtimestamp(...).strftime(date_format)`, `mkdirOk` tells
whether `os.makedirs` succeeds, `moveOk` whether `shutil.move` does. -/
structure DateEnv where
  mtime : String → Option Nat
  fmtDate : Nat → String
  mkdirOk : String → Bool
  moveOk : String → String → Bool

/-- One iteration of the `for filename in files` loop of
main.py:245-272.  Only `shutil.move` sits inside a `try` in the source;
a `getmtime` or `makedirs` failure raises out of the loop, which the
embedding reports as `none`. -/
def dateStep (env : DateEnv) (root : String) (acc : Option FS)
    (filename : String) : Option FS :=
  acc.bind (fun fs =>
    let file_path := joinPath root filename
    (env.mtime file_path).bind (fun t =>
      let date_folder := env.fmtDate t
      let dest_folder := joinPath root ("Date_" ++ date_folder)
      let afterMkdir : Option FS :=
        if pathExists fs dest_folder then some fs
        else if env.mkdirOk dest_folder then
          some { fs with dirs := fs.dirs ++ [dest_folder] }
        else none
      afterMkdir.bind (fun fs1 =>
        let dest_path := resolve_collision fs1 dest_folder filename
        if env.moveOk file_path dest_path then
          some (moveFile fs1 file_path dest_path)
        else some fs1)))

/-- `FileOrganizer.organize_by_date` (main.py:235-272).  `none` means an
uncaught exception escaped the run (`os.listdir` on a missing root,
`os.path.getmtime`, or `os.makedirs`). -/
def organize_by_date (env : DateEnv) (fs : FS) (root : String) :
    Option FS :=
  if isDir fs root then
    (listedFiles fs root).foldl (dateStep env root) (some fs)
  else none

/-- Sum of the per-category counts of a statistics record. -/
def sumCats (cats : List (String × Nat)) : Nat :=
  (cats.map Prod.snd).sum

/-! ## Basic lemmas about the string helpers -/

theorem joinPath_data (a b : String) :
    (joinPath a b).data = a.data ++ '/' :: b.data := by
  show (a ++ "/" ++ b).data = a.data ++ '/' :: b.data
  simp [String.data_append]

theorem joinPath_ne_left (root c : String) : joinPath root c ≠ root := by
  intro h
  have h2 : (joinPath root c).data.length = root.data.length := by rw [h]
  rw [joinPath_data] at h2
  simp at h2

theorem dropPref_self_append (xs ys : List Char) :
    dropPref xs (xs ++ ys) = some ys := by
  induction xs with
  | nil => rfl
  | cons a as ih => simp [dropPref, ih]

theorem dropPref_eq_some {xs zs ys : List Char}
    (h : dropPref xs zs = some ys) : zs = xs ++ ys := by
  induction xs generalizing zs with
  | nil => simpa [dropPref] using h
  | cons a as ih =>
    cases zs with
    | nil => simp [dropPref] at h
    | cons b bs =>
      by_cases hab : a = b
      · subst hab
        simp only [dropPref, if_pos rfl] at h
        simpa using ih h
      · simp [dropPref, hab] at h

theorem contains_false_of_not_mem {l : List Char} {c : Char}
    (h : c ∉ l) : l.contains c = false := by
  simp [List.contains, List.elem_eq_mem, h]

theorem not_mem_of_contains_false {l : List Char} {c : Char}
    (h : l.contains c = false) : c ∉ l := by
  simpa [List.contains, List.elem_eq_mem] using h

theorem childName_some {root p n : String}
    (h : childName root p = some n) :
    validName n ∧ p = joinPath root n := by
  unfold childName at h
  cases hdp : dropPref (root.data ++ ['/']) p.data with
  | none => rw [hdp] at h; exact absurd h (by simp)
  | some rest =>
    rw [hdp] at h
    simp only [Option.some_bind] at h
    by_cases hc : (!rest.isEmpty && !rest.contains '/') = true
    · rw [if_pos hc] at h
      have hn : n = ⟨rest⟩ := by
        have := h; injection this with h2; exact h2.symm
      subst hn
      have hdata := dropPref_eq_some hdp
      constructor
      · constructor
        · intro he
          have hre : rest = [] := he
          subst hre
          simp [List.isEmpty] at hc
        · have h1 := hc
          simp only [Bool.and_eq_true, Bool.not_eq_true'] at h1
          exact h1.2
      · apply String.ext
        rw [joinPath_data, hdata]
        simp
    · rw [if_neg hc] at h
      exact absurd h (by simp)

theorem childName_join {n : String} (root : String) (hn : validName n) :
    childName root (joinPath root n) = some n := by
  unfold childName
  have : (joinPath root n).data = (root.data ++ ['/']) ++ n.data := by
    rw [joinPath_data]; simp
  rw [this, dropPref_self_append]
  have h1 : n.data.isEmpty = false := by
    cases hd : n.data with
    | nil => exact absurd hd hn.1
    | cons a as => simp [List.isEmpty]
  simp only [Option.some_bind, h1, hn.2]
  simp

theorem childName_deep (root c y : String) :
    childName root (joinPath (joinPath root c) y) = none := by
  unfold childName
  have : (joinPath (joinPath root c) y).data
      = (root.data ++ ['/']) ++ (c.data ++ '/' :: y.data) := by
    rw [joinPath_data, joinPath_data]; simp
  rw [this, dropPref_self_append]
  have h1 : (c.data ++ '/' :: y.data).contains '/' = true := by
    simp [List.contains, List.elem_eq_mem]
  simp only [Option.some_bind, h1]
  simp

theorem splitOnLast_of_not_mem {c : Char} {l : List Char} (h : c ∉ l) :
    splitOnLast c l = none := by
  induction l with
  | nil => rfl
  | cons a as ih =>
    have ha : a ≠ c := fun he => h (he ▸ List.mem_cons_self a as)
    have has : c ∉ as := fun hm => h (List.mem_cons_of_mem a hm)
    simp [splitOnLast, ih has, ha]

theorem splitOnLast_append_cons {c : Char} (pre : List Char)
    {post : List Char} (h : c ∉ post) :
    splitOnLast c (pre ++ c :: post) = some (pre, post) := by
  induction pre with
  | nil => simp [splitOnLast, splitOnLast_of_not_mem h]
  | cons a as ih => simp [splitOnLast, ih]

theorem dirname_join {f : String} (root : String)
    (hf : f.data.contains '/' = false) :
    dirname (joinPath root f) = root := by
  unfold dirname
  rw [joinPath_data,
    splitOnLast_append_cons root.data (not_mem_of_contains_false hf)]

theorem dead_parent_check {f : String} (root cat : String)
    (hf : f.data.contains '/' = false) :
    dirname (joinPath root f) ≠ joinPath root cat := by
  rw [dirname_join root hf]
  intro h
  exact joinPath_ne_left root cat h.symm

/-! ## Claims C1 and C2: the classifier -/

theorem find?_filter_comm {α : Type} (l : List α) (p q : α → Bool) :
    (l.filter p).find? q = l.find? (fun a => p a && q a) := by
  induction l with
  | nil => rfl
  | cons a l ih =>
    by_cases hp : p a = true
    · by_cases hq : q a = true
      · simp [List.filter, List.find?, hp, hq]
      · simp only [Bool.not_eq_true] at hq
        simp [List.filter, List.find?, hp, hq, ih]
    · simp only [Bool.not_eq_true] at hp
      simp [List.filter, List.find?, hp, ih]

/-- C1: a filename containing any Screenshots substring token (checked
against the lowercased filename) is classified `"Screenshots"`,
whatever its extension: the substring check is the first test of
`get_file_category` and returns before any extension is examined. -/
theorem screenshot_token_forces_screenshots (filename : String)
    (h : screenshotTokens.any
        (fun keyword => containsStr (strLower filename) keyword) = true) :
    get_file_category filename = "Screenshots" := by
  unfold get_file_category
  simp [h]

theorem screenshot_token_forces_screenshots_witness :
    screenshotTokens.any
        (fun keyword => containsStr (strLower "My Screenshot 2023.png") keyword) = true
    ∧ get_file_category "My Screenshot 2023.png" = "Screenshots" :=
  ⟨by decide,
   screenshot_token_forces_screenshots "My Screenshot 2023.png" (by decide)⟩

/-- C2: on a filename with no Screenshots substring token, the
classifier equals the spec's extension scan (`extScanSpec`): the first
category in declaration order, Screenshots excluded, whose token list
contains the lowercased final extension, with fallback `"Others"`; and
the classifier always returns one of the declared category names. -/
theorem classifier_extension_scan (filename : String) :
    get_file_category filename ∈ file_categories.map Prod.fst
    ∧ (screenshotTokens.any
          (fun keyword => containsStr (strLower filename) keyword) = false →
        get_file_category filename = extScanSpec filename) := by
  constructor
  · unfold get_file_category
    by_cases h : screenshotTokens.any
        (fun keyword => containsStr (strLower filename) keyword) = true
    · simp only [h, if_true]
      decide
    · simp only [Bool.not_eq_true] at h
      simp only [h, Bool.false_eq_true, if_false]
      cases hf : file_categories.find?
          (fun ce => ce.1 != "Screenshots"
            && ce.2.contains (strLower (splitext filename).2)) with
      | none =>
        show "Others" ∈ file_categories.map Prod.fst
        decide
      | some ce =>
        simp only []
        exact List.mem_map_of_mem Prod.fst (List.mem_of_find?_eq_some hf)
  · intro h
    unfold get_file_category extScanSpec
    simp only [h, Bool.false_eq_true, if_false]
    rw [find?_filter_comm]

theorem classifier_extension_scan_witness :
    screenshotTokens.any
        (fun keyword => containsStr (strLower "report.pdf") keyword) = false
    ∧ get_file_category "report.pdf" = extScanSpec "report.pdf" :=
  ⟨by decide, (classifier_extension_scan "report.pdf").2 (by decide)⟩

/-! ## Claim C3: the collision resolver -/

theorem toDigitsCore_succ_unfold (b f n : Nat) (ds : List Char) :
    Nat.toDigitsCore b (f + 1) n ds =
      if n / b = 0 then Nat.digitChar (n % b) :: ds
      else Nat.toDigitsCore b f (n / b) (Nat.digitChar (n % b) :: ds) := by
  rfl

theorem toDigitsCore_len_lower :
    ∀ (e f n : Nat), 10 ^ e ≤ n → e < f →
      e + 1 ≤ (Nat.toDigitsCore 10 f n []).length := by
  intro e
  induction e with
  | zero =>
    intro f n hn hf
    obtain ⟨f', rfl⟩ : ∃ f', f = f' + 1 :=
      ⟨f - 1, by omega⟩
    rw [toDigitsCore_succ_unfold]
    by_cases h0 : n / 10 = 0
    · rw [if_pos h0]; simp
    · rw [if_neg h0, Nat.toDigitsCore_lens_eq]
      omega
  | succ e ih =>
    intro f n hn hf
    obtain ⟨f', rfl⟩ : ∃ f', f = f' + 1 :=
      ⟨f - 1, by omega⟩
    have hdiv : 10 ^ e ≤ n / 10 := by
      rw [Nat.le_div_iff_mul_le (by norm_num)]
      calc 10 ^ e * 10 = 10 ^ (e + 1) := (pow_succ 10 e).symm
        _ ≤ n := hn
    have h0 : n / 10 ≠ 0 := by
      intro h
      rw [h] at hdiv
      have hp : 0 < 10 ^ e := pow_pos (by norm_num) e
      omega
    rw [toDigitsCore_succ_unfold, if_neg h0, Nat.toDigitsCore_lens_eq]
    have := ih f' (n / 10) hdiv (by omega)
    omega

theorem repr_len_lower (e n : Nat) (h : 10 ^ e ≤ n) :
    e + 1 ≤ (Nat.repr n).length := by
  have hen : e < n + 1 := by
    have := Nat.lt_pow_self (a := 10) (by norm_num) e
    omega
  have : (Nat.repr n).length = (Nat.toDigitsCore 10 (n + 1) n []).length := rfl
  rw [this]
  exact toDigitsCore_len_lower e (n + 1) n h hen

theorem le_foldr_max_of_mem {l : List Nat} {x : Nat} (h : x ∈ l) :
    x ≤ l.foldr Nat.max 0 := by
  induction l with
  | nil => cases h
  | cons a l ih =>
    rcases List.mem_cons.mp h with rfl | hm
    · exact Nat.le_max_left _ _
    · exact Nat.le_trans (ih hm) (Nat.le_max_right _ _)

theorem len_le_maxPathLen {fs : FS} {p : String}
    (h : pathExists fs p = true) : p.data.length ≤ maxPathLen fs := by
  have hp : p ∈ fs.files ++ fs.dirs := by
    have := h
    unfold pathExists at this
    rcases Bool.or_eq_true_iff.mp this with hf | hd
    · exact List.mem_append_left _
        (by simpa [List.contains, List.elem_eq_mem] using hf)
    · exact List.mem_append_right _
        (by simpa [List.contains, List.elem_eq_mem] using hd)
  exact le_foldr_max_of_mem
    (List.mem_map_of_mem (fun p => p.data.length) hp)

theorem mkCand_len_lower (folder stem ext : String) (k : Nat) :
    (Nat.repr k).length ≤ (mkCand folder stem ext k).data.length := by
  unfold mkCand
  rw [joinPath_data]
  rw [String.data_append, String.data_append, String.data_append]
  simp only [List.length_append, List.length_cons]
  have hl : (Nat.repr k).length = (Nat.repr k).data.length := rfl
  rw [hl]
  omega

theorem big_counter_cand_free (fs : FS) (folder stem ext : String)
    {k : Nat} (hk : 10 ^ (maxPathLen fs + 1) ≤ k) :
    pathExists fs (mkCand folder stem ext k) = false := by
  by_contra h
  have hex : pathExists fs (mkCand folder stem ext k) = true := by
    revert h
    cases pathExists fs (mkCand folder stem ext k) <;> simp
  have h1 := len_le_maxPathLen hex
  have h2 := mkCand_len_lower folder stem ext k
  have h3 := repr_len_lower (maxPathLen fs + 1) k hk
  omega

theorem findFreeAux_free (fs : FS) (folder stem ext : String) :
    ∀ (fuel counter : Nat),
      pathExists fs (mkCand folder stem ext (counter + fuel)) = false →
      pathExists fs (findFreeAux fs folder stem ext fuel counter) = false := by
  intro fuel
  induction fuel with
  | zero =>
    intro counter h
    show pathExists fs (mkCand folder stem ext counter) = false
    simpa using h
  | succ fuel ih =>
    intro counter h
    unfold findFreeAux
    by_cases hc : pathExists fs (mkCand folder stem ext counter) = true
    · rw [if_pos hc]
      apply ih (counter + 1)
      have : counter + 1 + fuel = counter + (fuel + 1) := by omega
      rw [this]
      exact h
    · rw [if_neg hc]
      revert hc
      cases pathExists fs (mkCand folder stem ext counter) <;> simp

theorem findFreeAux_first (fs : FS) (folder stem ext : String) :
    ∀ (fuel counter : Nat),
      ∃ k, counter ≤ k
        ∧ findFreeAux fs folder stem ext fuel counter = mkCand folder stem ext k
        ∧ ∀ j, counter ≤ j → j < k →
            pathExists fs (mkCand folder stem ext j) = true := by
  intro fuel
  induction fuel with
  | zero =>
    intro counter
    exact ⟨counter, Nat.le_refl _, rfl, fun j h1 h2 => absurd h2 (by omega)⟩
  | succ fuel ih =>
    intro counter
    unfold findFreeAux
    by_cases hc : pathExists fs (mkCand folder stem ext counter) = true
    · rw [if_pos hc]
      obtain ⟨k, hk1, hk2, hk3⟩ := ih (counter + 1)
      refine ⟨k, by omega, hk2, fun j h1 h2 => ?_⟩
      by_cases hj : j = counter
      · subst hj; exact hc
      · exact hk3 j (by omega) h2
    · rw [if_neg hc]
      exact ⟨counter, Nat.le_refl _, rfl, fun j h1 h2 => absurd h2 (by omega)⟩

/-- C3: the duplicate-name resolution of `organize_files`
(main.py:173-180).  The returned path never exists in the current
filesystem state; when `dest_folder/filename` is free it is returned
unchanged; when it is occupied, the result is `stem_k.ext` for the
first counter `k ≥ 1` whose candidate is free.  Determinism of two
calls against the same state is immediate: `resolve_collision` is a
pure function of `(fs, dest_folder, filename)`. -/
theorem resolve_collision_contract (fs : FS) (dest_folder filename : String) :
    pathExists fs (resolve_collision fs dest_folder filename) = false
    ∧ (pathExists fs (joinPath dest_folder filename) = false →
        resolve_collision fs dest_folder filename = joinPath dest_folder filename)
    ∧ (pathExists fs (joinPath dest_folder filename) = true →
        ∃ k, 1 ≤ k
          ∧ resolve_collision fs dest_folder filename
              = mkCand dest_folder (splitext filename).1 (splitext filename).2 k
          ∧ ∀ j, 1 ≤ j → j < k →
              pathExists fs
                (mkCand dest_folder (splitext filename).1 (splitext filename).2 j)
                = true) := by
  unfold resolve_collision
  by_cases he : pathExists fs (joinPath dest_folder filename) = true
  · rw [if_pos he]
    have hfree : pathExists fs
        (mkCand dest_folder (splitext filename).1 (splitext filename).2
          (1 + resolveFuel fs)) = false := by
      apply big_counter_cand_free
      unfold resolveFuel
      omega
    refine ⟨findFreeAux_free fs _ _ _ (resolveFuel fs) 1 hfree, ?_, ?_⟩
    · intro h; rw [he] at h; cases h
    · intro _
      obtain ⟨k, hk1, hk2, hk3⟩ :=
        findFreeAux_first fs dest_folder (splitext filename).1
          (splitext filename).2 (resolveFuel fs) 1
      exact ⟨k, hk1, hk2, hk3⟩
  · rw [if_neg he]
    have he' : pathExists fs (joinPath dest_folder filename) = false := by
      revert he
      cases pathExists fs (joinPath dest_folder filename) <;> simp
    exact ⟨he', fun _ => rfl, fun h => by rw [he'] at h; cases h⟩

theorem resolve_collision_contract_witness :
    pathExists ⟨["/dl/photo.jpg", "/dl/photo_1.jpg"], ["/dl"]⟩
        (joinPath "/dl" "photo.jpg") = true
    ∧ ∃ k, 1 ≤ k
        ∧ resolve_collision ⟨["/dl/photo.jpg", "/dl/photo_1.jpg"], ["/dl"]⟩
            "/dl" "photo.jpg"
            = mkCand "/dl" (splitext "photo.jpg").1 (splitext "photo.jpg").2 k
        ∧ ∀ j, 1 ≤ j → j < k →
            pathExists ⟨["/dl/photo.jpg", "/dl/photo_1.jpg"], ["/dl"]⟩
              (mkCand "/dl" (splitext "photo.jpg").1 (splitext "photo.jpg").2 j)
              = true :=
  ⟨by decide,
   (resolve_collision_contract ⟨["/dl/photo.jpg", "/dl/photo_1.jpg"], ["/dl"]⟩
      "/dl" "photo.jpg").2.2 (by decide)⟩

/-! ## Claim C10: the tool's own artifacts are always skipped -/

/-- C10: a listed file named like the tool's own source file
(`os.path.basename(__file__)`, i.e. `main.py`) is counted as `skipped`
and never classified or moved — identically to `file_organizer.log` —
in dry and non-dry runs alike (main.py:156-159). -/
theorem own_artifacts_always_skipped (env : MoveEnv) (root : String)
    (dry_run : Bool) (fs : FS) (stats : Stats) :
    processFile env root dry_run (fs, stats) scriptName
        = (fs, { stats with skipped := stats.skipped + 1 })
    ∧ processFile env root dry_run (fs, stats) logName
        = (fs, { stats with skipped := stats.skipped + 1 }) := by
  constructor
  · unfold processFile
    rw [if_pos (Or.inl rfl)]
  · unfold processFile
    rw [if_pos (Or.inr rfl)]

/-! ## Claim C8: root-listing failure degrades to a no-op -/

/-- C8: when the root cannot be listed (`os.listdir` raises, e.g. the
path is missing), `organize_files` returns the statistics accumulated
so far — the all-zero record created at main.py:137-142 — and performs
no mutation, instead of propagating the exception (main.py:148-151,
213-215). -/
theorem missing_root_degrades (env : MoveEnv) (fs : FS) (root : String)
    (dry_run : Bool) (h : isDir fs root = false) :
    organize_files env fs root dry_run = (fs, stats0) := by
  unfold organize_files
  rw [h]
  simp

theorem missing_root_degrades_witness :
    isDir ⟨["/home/u/x.pdf"], []⟩ "/home/u/Downloads" = false
    ∧ organize_files (fun _ _ => true) ⟨["/home/u/x.pdf"], []⟩
        "/home/u/Downloads" false = (⟨["/home/u/x.pdf"], []⟩, stats0) :=
  ⟨by decide,
   missing_root_degrades (fun _ _ => true) ⟨["/home/u/x.pdf"], []⟩
     "/home/u/Downloads" false (by decide)⟩

/-! ## Claim C4: dry runs mutate nothing but count moves -/

theorem processFile_dry_step (env : MoveEnv) (root f : String)
    (s : FS × Stats) :
    (processFile env root true s f).1 = s.1
    ∧ (processFile env root true s f).2.moved
        + (processFile env root true s f).2.skipped
        = s.2.moved + s.2.skipped + 1
    ∧ (processFile env root true s f).2.categories = s.2.categories
    ∧ (processFile env root true s f).2.errors = s.2.errors := by
  unfold processFile
  by_cases h1 : f = scriptName ∨ f = logName
  · rw [if_pos h1]
    refine ⟨rfl, by simp; omega, rfl, rfl⟩
  · rw [if_neg h1]
    by_cases h2 : dirname (joinPath root f)
        = joinPath root (get_file_category f)
    · rw [if_pos h2]
      refine ⟨rfl, by simp; omega, rfl, rfl⟩
    · rw [if_neg h2]
      rw [if_pos rfl]
      refine ⟨rfl, by simp; omega, rfl, rfl⟩

theorem foldl_dry (env : MoveEnv) (root : String) :
    ∀ (l : List String) (s : FS × Stats),
      (l.foldl (processFile env root true) s).1 = s.1
      ∧ (l.foldl (processFile env root true) s).2.moved
          + (l.foldl (processFile env root true) s).2.skipped
          = s.2.moved + s.2.skipped + l.length
      ∧ (l.foldl (processFile env root true) s).2.categories
          = s.2.categories := by
  intro l
  induction l with
  | nil => intro s; exact ⟨rfl, by simp, rfl⟩
  | cons f l ih =>
    intro s
    have hs := processFile_dry_step env root f s
    have ht := ih (processFile env root true s f)
    simp only [List.foldl_cons, List.length_cons]
    refine ⟨?_, ?_, ?_⟩
    · rw [ht.1, hs.1]
    · have h1 := ht.2.1
      have h2 := hs.2.1
      omega
    · rw [ht.2.2, hs.2.2.1]

/-- C4: a dry run never mutates the filesystem — the final state equals
the initial one — while `moved` still reports the number of listed
regular files that were not skipped (main.py:182-184). -/
theorem dry_run_no_mutation (env : MoveEnv) (fs : FS) (root : String) :
    (organize_files env fs root true).1 = fs
    ∧ (isDir fs root = true →
        (organize_files env fs root true).2.moved
          = (listedFiles fs root).length
            - (organize_files env fs root true).2.skipped) := by
  unfold organize_files
  by_cases h : isDir fs root = true
  · rw [if_pos h]
    have hd := foldl_dry env root (listedFiles fs root) (fs, stats0)
    refine ⟨hd.1, fun _ => ?_⟩
    have h2 := hd.2.1
    have hz : (fs, stats0).2.moved + (fs, stats0).2.skipped = 0 := rfl
    omega
  · rw [if_neg h]
    exact ⟨rfl, fun hh => absurd hh h⟩

theorem dry_run_no_mutation_witness :
    isDir ⟨["/d/a.pdf", "/d/b.mp3"], ["/d"]⟩ "/d" = true
    ∧ (organize_files (fun _ _ => true) ⟨["/d/a.pdf", "/d/b.mp3"], ["/d"]⟩
          "/d" true).2.moved
        = (listedFiles ⟨["/d/a.pdf", "/d/b.mp3"], ["/d"]⟩ "/d").length
          - (organize_files (fun _ _ => true) ⟨["/d/a.pdf", "/d/b.mp3"], ["/d"]⟩
              "/d" true).2.skipped :=
  ⟨by decide,
   (dry_run_no_mutation (fun _ _ => true) ⟨["/d/a.pdf", "/d/b.mp3"], ["/d"]⟩
      "/d").2 (by decide)⟩

/-! ## Claim C9: category counts sum to `moved`; dry runs leave them empty -/

theorem map_bump_id {c : String} :
    ∀ (l : List (String × Nat)), (∀ p ∈ l, p.1 ≠ c) →
      l.map (fun p => if p.1 = c then (p.1, p.2 + 1) else p) = l := by
  intro l
  induction l with
  | nil => intro _; rfl
  | cons a l ih =>
    intro h
    have ha : a.1 ≠ c := h a (List.mem_cons_self a l)
    simp only [List.map_cons, if_neg ha]
    rw [ih (fun p hp => h p (List.mem_cons_of_mem a hp))]

theorem sumCats_bump_of_mem {c : String} :
    ∀ (l : List (String × Nat)), (l.map Prod.fst).Nodup →
      l.any (fun p => p.1 = c) = true →
      sumCats (l.map (fun p => if p.1 = c then (p.1, p.2 + 1) else p))
        = sumCats l + 1 := by
  intro l
  induction l with
  | nil => intro _ h; simp at h
  | cons a l ih =>
    intro hnd ha
    have hnd' : a.1 ∉ l.map Prod.fst ∧ (l.map Prod.fst).Nodup := by
      rw [List.map_cons] at hnd
      exact List.nodup_cons.mp hnd
    by_cases hac : a.1 = c
    · simp only [List.map_cons, if_pos hac]
      have : ∀ p ∈ l, p.1 ≠ c := by
        intro p hp he
        exact hnd'.1 (hac ▸ he ▸ List.mem_map_of_mem Prod.fst hp)
      rw [map_bump_id l this]
      simp [sumCats]
      omega
    · simp only [List.map_cons, if_neg hac]
      have ha' : l.any (fun p => p.1 = c) = true := by
        rcases List.any_eq_true.mp ha with ⟨x, hx, hpx⟩
        rcases List.mem_cons.mp hx with rfl | hxl
        · exact absurd (of_decide_eq_true hpx) hac
        · exact List.any_eq_true.mpr ⟨x, hxl, hpx⟩
      have := ih hnd'.2 ha'
      simp [sumCats] at this ⊢
      omega

theorem sumCats_bumpCat {cats : List (String × Nat)} {c : String}
    (hnd : (cats.map Prod.fst).Nodup) :
    sumCats (bumpCat cats c) = sumCats cats + 1 := by
  unfold bumpCat
  by_cases ha : cats.any (fun p => p.1 = c) = true
  · rw [if_pos ha]
    exact sumCats_bump_of_mem cats hnd ha
  · rw [if_neg ha]
    simp [sumCats]

theorem keys_bumpCat {cats : List (String × Nat)} {c : String}
    (hnd : (cats.map Prod.fst).Nodup) :
    ((bumpCat cats c).map Prod.fst).Nodup := by
  unfold bumpCat
  by_cases ha : cats.any (fun p => p.1 = c) = true
  · rw [if_pos ha]
    have : (cats.map (fun p => if p.1 = c then (p.1, p.2 + 1) else p)).map Prod.fst
        = cats.map Prod.fst := by
      rw [List.map_map]
      apply List.map_congr_left
      intro p _
      by_cases hp : p.1 = c <;> simp [hp]
    rw [this]
    exact hnd
  · rw [if_neg ha]
    have hfalse : cats.any (fun p => p.1 = c) = false := by
      revert ha
      cases cats.any (fun p => p.1 = c) <;> simp
    have hc : c ∉ cats.map Prod.fst := by
      intro hm
      rcases List.mem_map.mp hm with ⟨p, hp, hpc⟩
      have := List.any_eq_false.mp hfalse p hp
      simp [hpc] at this
    simp [List.nodup_append, hnd, hc]

theorem processFile_nondry_cats (env : MoveEnv) (root f : String)
    (s : FS × Stats)
    (hnd : (s.2.categories.map Prod.fst).Nodup)
    (hsum : sumCats s.2.categories = s.2.moved) :
    ((processFile env root false s f).2.categories.map Prod.fst).Nodup
    ∧ sumCats (processFile env root false s f).2.categories
        = (processFile env root false s f).2.moved := by
  unfold processFile
  by_cases h1 : f = scriptName ∨ f = logName
  · rw [if_pos h1]; exact ⟨hnd, hsum⟩
  · rw [if_neg h1]
    by_cases h2 : dirname (joinPath root f)
        = joinPath root (get_file_category f)
    · rw [if_pos h2]; exact ⟨hnd, hsum⟩
    · rw [if_neg h2]
      rw [if_neg (by simp : ¬ (false = true))]
      by_cases h3 : env (joinPath root f)
          (resolve_collision s.1 (joinPath root (get_file_category f)) f) = true
      · rw [if_pos h3]
        refine ⟨keys_bumpCat hnd, ?_⟩
        simp only []
        rw [sumCats_bumpCat hnd, hsum]
      · rw [if_neg h3]
        exact ⟨hnd, hsum⟩

theorem foldl_nondry_cats (env : MoveEnv) (root : String) :
    ∀ (l : List String) (s : FS × Stats),
      (s.2.categories.map Prod.fst).Nodup →
      sumCats s.2.categories = s.2.moved →
      ((l.foldl (processFile env root false) s).2.categories.map Prod.fst).Nodup
      ∧ sumCats (l.foldl (processFile env root false) s).2.categories
          = (l.foldl (processFile env root false) s).2.moved := by
  intro l
  induction l with
  | nil => intro s h1 h2; exact ⟨h1, h2⟩
  | cons f l ih =>
    intro s h1 h2
    have hs := processFile_nondry_cats env root f s h1 h2
    simpa using ih (processFile env root false s f) hs.1 hs.2

/-- C9: the per-category counts of a non-dry run sum to `moved`
(main.py:189-195 increments them together), while a dry run only
increments `moved` (main.py:182-184), so its `categories` mapping stays
empty. -/
theorem stats_categories_invariant (env : MoveEnv) (fs : FS) (root : String) :
    sumCats (organize_files env fs root false).2.categories
        = (organize_files env fs root false).2.moved
    ∧ (organize_files env fs root true).2.categories = [] := by
  constructor
  · unfold organize_files
    by_cases h : isDir fs root = true
    · rw [if_pos h]
      exact (foldl_nondry_cats env root (listedFiles fs root) (fs, stats0)
        (by simp [stats0]) rfl).2
    · rw [if_neg h]; rfl
  · unfold organize_files
    by_cases h : isDir fs root = true
    · rw [if_pos h]
      exact (foldl_dry env root (listedFiles fs root) (fs, stats0)).2.2
    · rw [if_neg h]; rfl

/-! ## Claim C6: a failed move is counted and the run continues -/

/-- C6: in a non-dry run, when `shutil.move` fails on one file
(main.py:197-199), that file contributes exactly `errors + 1`: the
filesystem, `moved` and `categories` are untouched for it; and the run
is a fold over the whole snapshot list, so processing always continues
with the remaining files — no per-file failure escapes the loop. -/
theorem move_failure_counted (env : MoveEnv) (root : String)
    (fs : FS) (stats : Stats) (filename : String)
    (h1 : ¬ (filename = scriptName ∨ filename = logName))
    (h2 : dirname (joinPath root filename)
        ≠ joinPath root (get_file_category filename))
    (h3 : env (joinPath root filename)
        (resolve_collision fs
          (joinPath root (get_file_category filename)) filename) = false) :
    processFile env root false (fs, stats) filename
        = (fs, { stats with errors := stats.errors + 1 })
    ∧ ∀ (s : FS × Stats) (l1 l2 : List String),
        (l1 ++ l2).foldl (processFile env root false) s
          = l2.foldl (processFile env root false)
              (l1.foldl (processFile env root false) s) := by
  constructor
  · unfold processFile
    rw [if_neg h1, if_neg h2, if_neg (by simp : ¬ (false = true)),
      if_neg (by simp [h3] : ¬ (env (joinPath root filename)
        (resolve_collision fs
          (joinPath root (get_file_category filename)) filename) = true))]
  · intro s l1 l2
    exact List.foldl_append _ _ l1 l2

theorem move_failure_counted_witness :
    (¬ ("a.pdf" = scriptName ∨ "a.pdf" = logName))
    ∧ dirname (joinPath "/d" "a.pdf")
        ≠ joinPath "/d" (get_file_category "a.pdf")
    ∧ processFile (fun _ _ => false) "/d" false (⟨["/d/a.pdf"], ["/d"]⟩, stats0)
        "a.pdf"
        = (⟨["/d/a.pdf"], ["/d"]⟩, { stats0 with errors := stats0.errors + 1 }) :=
  ⟨by decide, by decide,
   (move_failure_counted (fun _ _ => false) "/d" ⟨["/d/a.pdf"], ["/d"]⟩ stats0
      "a.pdf" (by decide) (by decide) rfl).1⟩

/-! ## Claim C7: error containment in date-based mode -/

theorem foldl_dateStep_total (env : DateEnv) (root : String)
    (hm : ∀ p, (env.mtime p).isSome = true)
    (hk : ∀ p, env.mkdirOk p = true) :
    ∀ (l : List String) (fs : FS),
      (l.foldl (dateStep env root) (some fs)).isSome = true := by
  intro l
  induction l with
  | nil => intro fs; rfl
  | cons f l ih =>
    intro fs
    rw [List.foldl_cons]
    obtain ⟨fs', hfs'⟩ : ∃ fs', dateStep env root (some fs) f = some fs' := by
      unfold dateStep
      simp only [Option.some_bind]
      obtain ⟨t, ht⟩ := Option.isSome_iff_exists.mp (hm (joinPath root f))
      rw [ht]
      simp only [Option.some_bind]
      by_cases he : pathExists fs (joinPath root ("Date_" ++ env.fmtDate t)) = true
      · rw [if_pos he]
        simp only [Option.some_bind]
        by_cases hmv : env.moveOk (joinPath root f)
            (resolve_collision fs (joinPath root ("Date_" ++ env.fmtDate t)) f)
            = true
        · rw [if_pos hmv]; exact ⟨_, rfl⟩
        · rw [if_neg hmv]; exact ⟨_, rfl⟩
      · rw [if_neg he, if_pos (hk _)]
        simp only [Option.some_bind]
        by_cases hmv : env.moveOk (joinPath root f)
            (resolve_collision { fs with
                dirs := fs.dirs ++ [joinPath root ("Date_" ++ env.fmtDate t)] }
              (joinPath root ("Date_" ++ env.fmtDate t)) f) = true
        · rw [if_pos hmv]; exact ⟨_, rfl⟩
        · rw [if_neg hmv]; exact ⟨_, rfl⟩
    rw [hfs']
    exact ih fs'

/-- C7 counterexample: in date mode only `shutil.move` sits inside a
`try` (main.py:268-272); `os.path.getmtime` (main.py:249) is outside
every `try`.  With a root containing two files whose modification time
cannot be read, the failure on the first file escapes the whole run
(`none`), aborting the second file as well — contradicting the claim
that any per-file failure is caught for that file only. -/
theorem date_mode_failure_escapes :
    organize_by_date
      ⟨fun _ => none, fun _ => "2024-01", fun _ => true, fun _ _ => true⟩
      ⟨["/d/a.pdf", "/d/b.pdf"], ["/d"]⟩ "/d" = none := by
  decide

/-- C7 amended: only a `shutil.move` failure is caught and confined to
its file; whenever `os.path.getmtime` and `os.makedirs` do not fail,
no exception escapes `organize_by_date`, whatever moves fail. -/
theorem date_mode_only_moves_caught (env : DateEnv) (fs : FS) (root : String)
    (hdir : isDir fs root = true)
    (hm : ∀ p, (env.mtime p).isSome = true)
    (hk : ∀ p, env.mkdirOk p = true) :
    (organize_by_date env fs root).isSome = true := by
  unfold organize_by_date
  rw [hdir]
  rw [if_pos rfl]
  exact foldl_dateStep_total env root hm hk _ fs

theorem date_mode_only_moves_caught_witness :
    isDir (⟨["/d/a.pdf"], ["/d"]⟩ : FS) "/d" = true
    ∧ (organize_by_date
        ⟨fun _ => some 0, fun _ => "2024-01", fun _ => true, fun _ _ => false⟩
        ⟨["/d/a.pdf"], ["/d"]⟩ "/d").isSome = true :=
  ⟨by decide,
   date_mode_only_moves_caught
     ⟨fun _ => some 0, fun _ => "2024-01", fun _ => true, fun _ _ => false⟩
     ⟨["/d/a.pdf"], ["/d"]⟩ "/d" (by decide) (fun p => rfl) (fun p => rfl)⟩

/-! ## Claim C5: running the pipeline twice

The scan of `organize_files` is non-recursive (main.py:150-151): only
regular files *directly under* the root are listed.  After a first
non-dry run in which every move succeeds, the moved files sit inside
category subfolders and are no longer listed at all; and the "already
in its category folder" check of main.py:164-167 compares
`os.path.dirname(file_path)` — always the root itself for a listed
file — with `root/category`, so it can never fire.  The lemmas below
establish what a second run actually does. -/

theorem organize_files_of_not_dir (env : MoveEnv) (fs : FS) (root : String)
    (dry_run : Bool) (h : isDir fs root = false) :
    organize_files env fs root dry_run = (fs, stats0) := by
  unfold organize_files
  rw [h]
  simp

theorem organize_files_of_dir (env : MoveEnv) (fs : FS) (root : String)
    (dry_run : Bool) (h : isDir fs root = true) :
    organize_files env fs root dry_run
      = (listedFiles fs root).foldl (processFile env root dry_run)
          (fs, stats0) := by
  unfold organize_files
  rw [if_pos h]

theorem processFile_dirs (env : MoveEnv) (root f : String) (dry : Bool)
    (s : FS × Stats) :
    (processFile env root dry s f).1.dirs = s.1.dirs := by
  unfold processFile
  by_cases h1 : f = scriptName ∨ f = logName
  · rw [if_pos h1]
  · rw [if_neg h1]
    by_cases h2 : dirname (joinPath root f)
        = joinPath root (get_file_category f)
    · rw [if_pos h2]
    · rw [if_neg h2]
      by_cases h3 : dry = true
      · rw [if_pos h3]
      · rw [if_neg h3]
        by_cases h4 : env (joinPath root f)
            (resolve_collision s.1
              (joinPath root (get_file_category f)) f) = true
        · rw [if_pos h4]; rfl
        · rw [if_neg h4]

theorem foldl_processFile_dirs (env : MoveEnv) (root : String) (dry : Bool) :
    ∀ (l : List String) (s : FS × Stats),
      (l.foldl (processFile env root dry) s).1.dirs = s.1.dirs := by
  intro l
  induction l with
  | nil => intro s; rfl
  | cons f l ih =>
    intro s
    rw [List.foldl_cons, ih, processFile_dirs]

theorem organize_files_dirs (env : MoveEnv) (fs : FS) (root : String)
    (dry : Bool) :
    (organize_files env fs root dry).1.dirs = fs.dirs := by
  unfold organize_files
  by_cases h : isDir fs root = true
  · rw [if_pos h, foldl_processFile_dirs]
  · rw [if_neg h]

theorem resolve_collision_shape (fs : FS) (folder f : String) :
    ∃ y, resolve_collision fs folder f = joinPath folder y := by
  unfold resolve_collision
  by_cases h : pathExists fs (joinPath folder f) = true
  · rw [if_pos h]
    obtain ⟨k, _, hk2, _⟩ := findFreeAux_first fs folder (splitext f).1
      (splitext f).2 (resolveFuel fs) 1
    rw [hk2]
    exact ⟨(splitext f).1 ++ "_" ++ Nat.repr k ++ (splitext f).2, rfl⟩
  · rw [if_neg h]
    exact ⟨f, rfl⟩

theorem listedFiles_valid (fs : FS) (root : String) :
    ∀ n ∈ listedFiles fs root, validName n := by
  intro n hn
  unfold listedFiles at hn
  rcases List.mem_filter.mp hn with ⟨hmem, _⟩
  unfold listdir at hmem
  rcases List.mem_append.mp hmem with h | h <;>
    · rcases List.mem_filterMap.mp h with ⟨p, _, hcn⟩
      exact (childName_some hcn).1

theorem initial_under_root (fs : FS) (root : String) :
    ∀ p ∈ fs.files, ∀ n, childName root p = some n →
      n ∈ listedFiles fs root ∨ n = scriptName ∨ n = logName := by
  intro p hp n hcn
  left
  obtain ⟨hval, hpe⟩ := childName_some hcn
  subst hpe
  unfold listedFiles
  apply List.mem_filter.mpr
  constructor
  · unfold listdir
    apply List.mem_append_left
    exact List.mem_filterMap.mpr ⟨joinPath root n, hp, hcn⟩
  · unfold isFile
    simp [List.contains, List.elem_eq_mem, hp]

theorem run1_under_root (root : String) :
    ∀ (l : List String) (s : FS × Stats),
      (∀ n ∈ l, validName n) →
      (∀ p ∈ s.1.files, ∀ n, childName root p = some n →
          n ∈ l ∨ n = scriptName ∨ n = logName) →
      ∀ p ∈ ((l.foldl (processFile (fun _ _ => true) root false) s).1).files,
        ∀ n, childName root p = some n → n = scriptName ∨ n = logName := by
  intro l
  induction l with
  | nil =>
    intro s _ hinv p hp n hcn
    rcases hinv p hp n hcn with h | h
    · cases h
    · exact h
  | cons x l ih =>
    intro s hvalid hinv
    rw [List.foldl_cons]
    apply ih
    · intro n hn; exact hvalid n (List.mem_cons_of_mem x hn)
    · by_cases hskip : x = scriptName ∨ x = logName
      · have h1 : (processFile (fun _ _ => true) root false s x).1 = s.1 := by
          unfold processFile; rw [if_pos hskip]
        rw [h1]
        intro p hp n hcn
        rcases hinv p hp n hcn with hl | hr
        · rcases List.mem_cons.mp hl with rfl | hl2
          · right; exact hskip
          · left; exact hl2
        · right; exact hr
      · have hx : validName x := hvalid x (List.mem_cons_self x l)
        have h1 : (processFile (fun _ _ => true) root false s x).1
            = moveFile s.1 (joinPath root x)
                (resolve_collision s.1
                  (joinPath root (get_file_category x)) x) := by
          unfold processFile
          rw [if_neg hskip,
            if_neg (dead_parent_check root (get_file_category x) hx.2),
            if_neg (by simp : ¬ (false = true)), if_pos rfl]
        rw [h1]
        intro p hp n hcn
        unfold moveFile at hp
        simp only [List.mem_append, List.mem_filter, List.mem_singleton] at hp
        rcases hp with ⟨hpf, hpne⟩ | rfl
        · rcases hinv p hpf n hcn with hl | hr
          · rcases List.mem_cons.mp hl with rfl | hl2
            · exfalso
              exact (of_decide_eq_true hpne) (childName_some hcn).2
            · left; exact hl2
          · right; exact hr
        · exfalso
          obtain ⟨y, hy⟩ := resolve_collision_shape s.1
            (joinPath root (get_file_category x)) x
          rw [hy, childName_deep] at hcn
          cases hcn

theorem snapshot_all_skips {fs1 : FS} {root : String}
    (hinv : ∀ p ∈ fs1.files, ∀ n, childName root p = some n →
        n = scriptName ∨ n = logName) :
    ∀ f ∈ listedFiles fs1 root, f = scriptName ∨ f = logName := by
  intro f hf
  unfold listedFiles at hf
  rcases List.mem_filter.mp hf with ⟨hmem, hfile⟩
  have hjf : joinPath root f ∈ fs1.files := by
    unfold isFile at hfile
    simpa [List.contains, List.elem_eq_mem] using hfile
  have hval : validName f := by
    unfold listdir at hmem
    rcases List.mem_append.mp hmem with h | h <;>
      · rcases List.mem_filterMap.mp h with ⟨p, _, hcn⟩
        exact (childName_some hcn).1
  exact hinv (joinPath root f) hjf f (childName_join root hval)

theorem fold_all_skips (env : MoveEnv) (root : String) (dry : Bool) :
    ∀ (l : List String) (s : FS × Stats),
      (∀ f ∈ l, f = scriptName ∨ f = logName) →
      (l.foldl (processFile env root dry) s).1 = s.1
      ∧ (l.foldl (processFile env root dry) s).2.moved = s.2.moved
      ∧ (l.foldl (processFile env root dry) s).2.errors = s.2.errors := by
  intro l
  induction l with
  | nil => intro s _; exact ⟨rfl, rfl, rfl⟩
  | cons f l ih =>
    intro s h
    rw [List.foldl_cons]
    have hf := h f (List.mem_cons_self f l)
    have hstep : processFile env root dry s f
        = (s.1, { s.2 with skipped := s.2.skipped + 1 }) := by
      unfold processFile; rw [if_pos hf]
    rw [hstep]
    have ht := ih (s.1, { s.2 with skipped := s.2.skipped + 1 })
      (fun g hg => h g (List.mem_cons_of_mem f hg))
    simpa using ht

/-- C5 counterexample: root `/d` holding the single file `a.pdf`, all
moves succeeding.  The first non-dry run moves it (`moved = 1`), but
the second run reports `skipped = 0`: the moved file now lives in
`/d/Documents/`, outside the non-recursive scan, so it is not
"reported as skipped" as the claim states — it is not listed at all. -/
theorem second_run_skips_nothing :
    (organize_files (fun _ _ => true) ⟨["/d/a.pdf"], ["/d"]⟩ "/d" false).2.moved
        = 1
    ∧ (organize_files (fun _ _ => true)
        (organize_files (fun _ _ => true) ⟨["/d/a.pdf"], ["/d"]⟩ "/d" false).1
        "/d" false).2.skipped = 0
    ∧ (organize_files (fun _ _ => true)
        (organize_files (fun _ _ => true) ⟨["/d/a.pdf"], ["/d"]⟩ "/d" false).1
        "/d" false).2.moved = 0 := by
  decide

/-- C5 amended: with every move succeeding, running the non-dry
pipeline twice moves each file exactly once — the second run moves
nothing, errors on nothing and leaves the filesystem exactly as the
first run left it.  The previously moved files are *not* reported as
`skipped` by the second run: they are inside category subfolders,
which the non-recursive scan does not list (and the parent-folder skip
check of main.py:164-167 can never fire for a listed file); the second
run's `skipped` counts only the tool's own artifacts still under the
root. -/
theorem rerun_moves_nothing (fs : FS) (root : String) :
    (organize_files (fun _ _ => true)
        (organize_files (fun _ _ => true) fs root false).1 root false).1
      = (organize_files (fun _ _ => true) fs root false).1
    ∧ (organize_files (fun _ _ => true)
        (organize_files (fun _ _ => true) fs root false).1 root false).2.moved
        = 0
    ∧ (organize_files (fun _ _ => true)
        (organize_files (fun _ _ => true) fs root false).1 root false).2.errors
        = 0 := by
  by_cases h : isDir fs root = true
  · have hfs1 : (organize_files (fun _ _ => true) fs root false).1
        = ((listedFiles fs root).foldl
            (processFile (fun _ _ => true) root false) (fs, stats0)).1 :=
      congrArg Prod.fst (organize_files_of_dir (fun _ _ => true) fs root false h)
    have hdir1 : isDir (organize_files (fun _ _ => true) fs root false).1 root
        = true := by
      unfold isDir
      rw [organize_files_dirs]
      exact h
    have hinv : ∀ p ∈ (organize_files (fun _ _ => true) fs root false).1.files,
        ∀ n, childName root p = some n →
          n = scriptName ∨ n = logName := by
      rw [hfs1]
      exact run1_under_root root (listedFiles fs root) (fs, stats0)
        (listedFiles_valid fs root) (initial_under_root fs root)
    have hskips := snapshot_all_skips hinv
    have hrun2 : organize_files (fun _ _ => true)
        (organize_files (fun _ _ => true) fs root false).1 root false
        = (listedFiles (organize_files (fun _ _ => true) fs root false).1
            root).foldl (processFile (fun _ _ => true) root false)
            ((organize_files (fun _ _ => true) fs root false).1, stats0) :=
      organize_files_of_dir (fun _ _ => true)
        (organize_files (fun _ _ => true) fs root false).1 root false hdir1
    rw [hrun2]
    have hfold := fold_all_skips (fun _ _ => true) root false
      (listedFiles (organize_files (fun _ _ => true) fs root false).1 root)
      ((organize_files (fun _ _ => true) fs root false).1, stats0) hskips
    exact ⟨hfold.1, hfold.2.1, hfold.2.2⟩
  · have h2 : isDir fs root = false := by
      revert h; cases isDir fs root <;> simp
    rw [organize_files_of_not_dir (fun _ _ => true) fs root false h2]
    rw [organize_files_of_not_dir (fun _ _ => true) fs root false h2]
    exact ⟨rfl, rfl, rfl⟩
